import Mathlib

/-
Shallow embedding of toggle-comment (src/main.rs, with toggle_block from
src/test.rs).  Lines are modelled as `List Char`.  A compiled regular
expression is modelled as an abstract matcher `List Char → Bool` (the regex
engine is an external library; `re.is_match(line)` is function application).
Rust panics (`panic!`, `todo!`, `unreachable!`, `unwrap` failures) are
modelled as `none` of an `Option` result.
-/

/-- ASCII fragment of the regex class `\s`, the whitespace characters that
occur in newline-split text lines. -/
def isWsChar (c : Char) : Bool :=
  c == ' ' || c == '\t' || c == '\n' || c == '\r' || c == '\x0b' || c == '\x0c'

/-- Leading-whitespace run of a line (the `head` capture of the comment
detector regex). -/
def wsRun (l : List Char) : List Char := l.takeWhile isWsChar

/-- The line after its leading-whitespace run. -/
def afterWs (l : List Char) : List Char := l.dropWhile isWsChar

/-- Boolean check that the first list is an initial segment of the second. -/
def isPre : List Char → List Char → Bool
  | [], _ => true
  | _ :: _, [] => false
  | a :: as, b :: bs => a == b && isPre as bs

/-- Embedding of `Regex::new(&format!(r"^(?P<head>\s*){}(?P<tail>.*?)$", prefix)).is_match(line)`
(built in `comment_lines` and `main` of src/main.rs).  For a comment prefix
whose first character is not whitespace (such as the default prefix), the
`\s*` group of any match is forced to be exactly the leading-whitespace run
of the line, so the anchored regex matches iff the prefix occurs immediately
after the leading whitespace. -/
def pmatch (pre l : List Char) : Bool := isPre pre (afterWs l)

/-- Embedding of `prefix_pattern.replace(line, "$head$tail")` under the same
characterization: on a match, keep the leading whitespace (`head`) and the
remainder after the prefix (`tail`); otherwise return the line unchanged. -/
def pReplace (pre l : List Char) : List Char :=
  if pmatch pre l then wsRun l ++ (afterWs l).drop pre.length else l

/-- Embedding of the regex `^\s*$` (local `blank` in `will_comment` and
`comment_block`): the line is empty or whitespace-only. -/
def blank (l : List Char) : Bool := l.all isWsChar

/-- The default comment prefix string. -/
def hashPre : List Char := "# ".toList

/-- src/main.rs `force_comment_line`: unconditionally prepend the prefix. -/
def force_comment_line (pre l : List Char) : List Char := pre ++ l

/-- src/main.rs `comment_line`: prepend the prefix unless the line already
matches the comment-detector pattern. -/
def comment_line (pre l : List Char) : List Char :=
  if pmatch pre l then l else pre ++ l

/-- src/main.rs `toggle_line`: strip the prefix if the line matches the
detector, otherwise prepend it. -/
def toggle_line (pre l : List Char) : List Char :=
  if pmatch pre l then pReplace pre l else pre ++ l

/-- src/main.rs `uncomment_line`: `prefix_pattern.replace(line, "$head$tail")`. -/
def uncomment_line (pre l : List Char) : List Char := pReplace pre l

/-- src/main.rs `CommentingMode`. -/
inductive CommentingMode where
  | Toggle
  | Comment
  | Uncomment

/-- src/main.rs `will_comment`: walk the block once; skip blank lines; if a
non-blank line does not match the comment pattern the block should be
commented (`true`), otherwise keep walking; all-matching blocks give `false`. -/
def will_comment (pre : List Char) : List (List Char) → Bool
  | [] => false
  | l :: ls =>
    if blank l then will_comment pre ls
    else if pmatch pre l then will_comment pre ls
    else true

/-- src/main.rs `comment_block`: pick one operator for the whole block
(Toggle mode consults `will_comment`), then apply it to every line, passing
blank lines through unchanged. -/
def comment_block (mode : CommentingMode) (pre : List Char) (lines : List (List Char)) : List (List Char) :=
  let op : List Char → List Char → List Char :=
    match mode with
    | CommentingMode.Comment => comment_line
    | CommentingMode.Uncomment => uncomment_line
    | CommentingMode.Toggle =>
      if will_comment pre lines then force_comment_line else uncomment_line
  lines.map (fun l => if blank l then l else op pre l)

/-- src/test.rs `toggle_block`: the block toggle, i.e. `comment_block` in
Toggle mode. -/
def toggle_block (pre : List Char) (lines : List (List Char)) : List (List Char) :=
  comment_block CommentingMode.Toggle pre lines

/-- src/main.rs `AddressComponent`.  A compiled `Regex` is abstracted as a
matcher function. -/
inductive AddressComponent where
  | Line (n : Nat)
  | RegexPattern (re : List Char → Bool)
  | Relative (n : Nat)
  | Step (n : Nat)

/-- src/main.rs `AddressComponent::matches`; the `Relative` and `Step` arms
are `todo!()` panics, modelled as `none`. -/
def AddressComponent.matches (a : AddressComponent) (line_number : Nat) (l : List Char) : Option Bool :=
  match a with
  | AddressComponent.Line n => some (n == line_number)
  | AddressComponent.RegexPattern re => some (re l)
  | AddressComponent.Relative _ => none
  | AddressComponent.Step _ => none

/-- src/main.rs `Address`. -/
inductive Address where
  | ZeroAddress
  | OneAddress (a : AddressComponent)
  | AddressRange (a b : AddressComponent)

/-- src/main.rs `AddressPattern`. -/
structure AddressPattern where
  pattern : Address
  negated : Bool

/-- src/main.rs `MatchState`. -/
structure MatchState where
  left_match : Option Nat
  right_match : Option Nat
deriving DecidableEq

/-- src/main.rs `EMPTY_STATE`. -/
def EMPTY_STATE : MatchState := MatchState.mk none none

/-- src/main.rs `MatchState::match_left`. -/
def MatchState.match_left (s : MatchState) (idx : Nat) : MatchState :=
  MatchState.mk (some idx) s.right_match

/-- src/main.rs `MatchState::match_right`. -/
def MatchState.match_right (s : MatchState) (idx : Nat) : MatchState :=
  MatchState.mk s.left_match (some idx)

/-- src/main.rs `AddressPattern::new_single`. -/
def AddressPattern.new_single (addr : AddressComponent) : AddressPattern :=
  AddressPattern.mk (Address.OneAddress addr) false

/-- src/main.rs `AddressPattern::new_range`. -/
def AddressPattern.new_range (s e : AddressComponent) : AddressPattern :=
  AddressPattern.mk (Address.AddressRange s e) false

/-- src/main.rs `AddressPattern::invert`. -/
def AddressPattern.invert (p : AddressPattern) : AddressPattern :=
  AddressPattern.mk p.pattern (!p.negated)

/-- src/main.rs `AddressPattern::is_range`. -/
def AddressPattern.is_range (p : AddressPattern) : Bool :=
  match p.pattern with
  | Address.AddressRange _ _ => true
  | _ => false

/-- src/main.rs `AddressPattern::match_range`.  The `todo!()` arms (Step as
second component), the `unreachable!()` catch-all (Relative or Step as first
component) and the failing assert on a non-range pattern are modelled as
`none`.  Rust `(*s..*e+1).contains(&n)` is `s <= n && n < e+1`. -/
def AddressPattern.match_range (p : AddressPattern) (line_number : Nat) (l : List Char) (state : MatchState) : Option (Bool × MatchState) :=
  match p.pattern with
  | Address.AddressRange (AddressComponent.Line s) (AddressComponent.Line e) =>
    some (decide (s ≤ line_number) && decide (line_number < e + 1), state)
  | Address.AddressRange (AddressComponent.Line s) (AddressComponent.RegexPattern e) =>
    match state.right_match with
    | none =>
      if e l && decide (line_number > s) then
        some (true, MatchState.mk none (some line_number))
      else if decide (line_number ≥ s) then some (true, state)
      else some (false, state)
    | some _ => some (false, state)
  | Address.AddressRange (AddressComponent.Line s) (AddressComponent.Relative count) =>
    some (decide (s ≤ line_number) && decide (line_number < s + count + 1), state)
  | Address.AddressRange (AddressComponent.Line _) (AddressComponent.Step _) => none
  | Address.AddressRange (AddressComponent.RegexPattern s) (AddressComponent.Line e) =>
    let new_state := if s l then state.match_left line_number else state
    some (s l || (state.left_match.isSome && decide (line_number ≤ e)), new_state)
  | Address.AddressRange (AddressComponent.RegexPattern s) (AddressComponent.RegexPattern e) =>
    let ns1 := if e l then state.match_right line_number else state
    let ns2 := if s l then MatchState.mk (some line_number) none else ns1
    some (s l || (state.left_match.isSome && state.right_match.isNone), ns2)
  | Address.AddressRange (AddressComponent.RegexPattern s) (AddressComponent.Relative count) =>
    match state.left_match with
    | none =>
      if s l then some (true, MatchState.mk (some line_number) none)
      else some (false, state)
    | some last =>
      if decide (line_number > last + count) then some (false, MatchState.mk none none)
      else some (true, state)
  | Address.AddressRange (AddressComponent.RegexPattern _) (AddressComponent.Step _) => none
  | Address.AddressRange _ _ => none
  | _ => none

/-- The body of src/main.rs `AddressPattern::matches` before the negation
step: the `(is_match, new_state)` pair, where the two panicking one-address
shapes give `none`. -/
def AddressPattern.matches_raw (p : AddressPattern) (line_number : Nat) (l : List Char) (state : MatchState) : Option (Bool × MatchState) :=
  match p.pattern with
  | Address.ZeroAddress => some (true, state)
  | Address.OneAddress (AddressComponent.Relative _) => none
  | Address.OneAddress (AddressComponent.Step _) => none
  | Address.OneAddress addr => (addr.matches line_number l).map (fun b => (b, state))
  | Address.AddressRange _ _ => p.match_range line_number l state

/-- src/main.rs `AddressPattern::matches`: evaluate the pattern, then apply
the negation flag to the boolean only. -/
def AddressPattern.matches (p : AddressPattern) (line_number : Nat) (l : List Char) (state : MatchState) : Option (Bool × MatchState) :=
  (p.matches_raw line_number l state).map
    (fun r => (if p.negated then !r.1 else r.1, r.2))

/-- Value of a nonempty all-digit character list, the digit core of Rust
`usize::from_str`. -/
def parseDigits (s : List Char) : Option Nat :=
  if s ≠ [] && s.all Char.isDigit then
    some (s.foldl (fun a c => a * 10 + (c.toNat - 48)) 0)
  else none

/-- Model of Rust `str::parse::<usize>()`: an optional leading plus sign
followed by one or more digits (overflow is ignored: Nat). -/
def parseUsize (s : List Char) : Option Nat :=
  match s with
  | '+' :: rest => parseDigits rest
  | _ => parseDigits s

/-- Model of `s.trim_start_matches("/").trim_end_matches("/")`. -/
def trimSlashes (s : List Char) : List Char :=
  ((s.dropWhile (· == '/')).reverse.dropWhile (· == '/')).reverse

/-- src/main.rs `try_parse_component`, parameterized over the external regex
compiler (`Regex::new(..).unwrap()`, assumed to succeed). -/
def try_parse_component (compile : List Char → (List Char → Bool)) (s : List Char) : Except String AddressComponent :=
  match s with
  | '/' :: _ => Except.ok (AddressComponent.RegexPattern (compile (trimSlashes s)))
  | '+' :: _ =>
    match parseUsize s with
    | some n => Except.ok (AddressComponent.Relative n)
    | none => Except.error "unable to parse relative range"
  | _ =>
    match parseUsize s with
    | some n => Except.ok (AddressComponent.Line n)
    | none => Except.error "unable to parse component"

/-- src/main.rs `try_parse_pattern`: split the string on commas, keep the
first two parts, and build a single or range pattern. -/
def try_parse_pattern (compile : List Char → (List Char → Bool)) (s : List Char) : Except String AddressPattern :=
  match (s.splitOn ',').take 2 with
  | [p0] => (try_parse_component compile p0).map AddressPattern.new_single
  | [p0, p1] => do
    let left ← try_parse_component compile p0
    let right ← try_parse_component compile p1
    Except.ok (AddressPattern.new_range left right)
  | _ => Except.error "unimplemented"

/-- Loop body of src/main.rs `comment_lines`: each line is tested with
`EMPTY_STATE` (the state is not threaded in this path) and the chosen
operator is applied to matching lines; a panicking match aborts (`none`). -/
def comment_lines_go (p : AddressPattern) (op : List Char → List Char → List Char) (pre : List Char) : Nat → List (List Char) → Option (List (List Char))
  | _, [] => some []
  | idx, l :: ls =>
    match p.matches (idx + 1) l EMPTY_STATE with
    | none => none
    | some (m, _) =>
      (comment_lines_go p op pre (idx + 1) ls).map
        (fun rest => (if m then op pre l else l) :: rest)

/-- src/main.rs `comment_lines`: the per-line (non-block) processing path. -/
def comment_lines (lines : List (List Char)) (p : AddressPattern) (pre : List Char) (mode : CommentingMode) : Option (List (List Char)) :=
  let op : List Char → List Char → List Char :=
    match mode with
    | CommentingMode.Comment => comment_line
    | CommentingMode.Toggle => toggle_line
    | CommentingMode.Uncomment => uncomment_line
  comment_lines_go p op pre 0 lines

/-- The `scan` step of src/main.rs `get_matches`: evaluate the pattern on
each line in order, threading the MatchState, producing per-line
`(is_match, line)` pairs; a panicking match aborts (`none`). -/
def get_flags (p : AddressPattern) : Nat → MatchState → List (List Char) → Option (List (Bool × List Char))
  | _, _, [] => some []
  | idx, st, l :: ls =>
    match p.matches (idx + 1) l st with
    | none => none
    | some (m, st') => (get_flags p (idx + 1) st' ls).map (fun rest => (m, l) :: rest)

/-- The grouping step of src/main.rs `get_matches`: maximal runs of
consecutive lines sharing one flag. -/
def groupRuns : List (Bool × List Char) → List (Bool × List (List Char))
  | [] => []
  | (b, l) :: rest =>
    match groupRuns rest with
    | [] => [(b, [l])]
    | (b', c) :: gs =>
      if b == b' then (b, l :: c) :: gs else (b, [l]) :: (b', c) :: gs

/-- src/main.rs `get_matches`: flag every line, then group contiguous
same-flag runs. -/
def get_matches (p : AddressPattern) (lines : List (List Char)) (initial_state : MatchState) : Option (List (Bool × List (List Char))) :=
  (get_flags p 0 initial_state lines).map groupRuns

/-- The output loop in src/main.rs `main` for the range branch: matched
chunks go through `comment_block`, unmatched chunks are printed verbatim. -/
def apply_chunks (mode : CommentingMode) (pre : List Char) : List (Bool × List (List Char)) → List (List Char)
  | [] => []
  | (m, c) :: gs =>
    (if m then comment_block mode pre c else c) ++ apply_chunks mode pre gs

/-- The processing dispatch of src/main.rs `main`: a range pattern goes
through `get_matches` + `comment_block` per matched chunk (block path); any
other pattern goes through `comment_lines` (per-line path). -/
def process (mode : CommentingMode) (p : AddressPattern) (pre : List Char) (lines : List (List Char)) : Option (List (List Char)) :=
  if p.is_range then
    (get_matches p lines EMPTY_STATE).map (apply_chunks mode pre)
  else
    comment_lines lines p pre mode

/-- Selection flags of a stream of lines, scanned from the empty state: the
booleans of `get_flags`. -/
def line_flags (p : AddressPattern) (lines : List (List Char)) : Option (List Bool) :=
  (get_flags p 0 EMPTY_STATE lines).map (fun ps => ps.map Prod.fst)

/-- A trivial stand-in for the external regex compiler, for parse-only
statements in which the compiled matcher is never consulted. -/
def compileTriv : List Char → (List Char → Bool) := fun _ _ => false

/-- Concrete matcher standing for the regex `foo` on the test lines used
below (each line is either exactly `foo` or contains no `foo` at all). -/
def reFoo : List Char → Bool := fun l => l == "foo".toList

/-- Concrete matcher standing for a regex matching exactly the line `x`. -/
def reX : List Char → Bool := fun l => l == "x".toList

/-- Concrete matcher standing for a regex matching exactly the line `ab`. -/
def reAb : List Char → Bool := fun l => l == "ab".toList

/- ------------------------------------------------------------------ -/
/- Helper lemmas -/

theorem hashPre_eq : hashPre = ['#', ' '] := rfl

theorem all_ws_dropWhile (l : List Char) (h : l.all isWsChar = true) :
    l.dropWhile isWsChar = [] := by
  induction l with
  | nil => rfl
  | cons c cs ih =>
    simp only [List.all_cons, Bool.and_eq_true] at h
    simp [List.dropWhile_cons, h.1, ih h.2]

theorem afterWs_ws_append (w : List Char) (hw : w.all isWsChar = true)
    (c : Char) (hc : isWsChar c = false) (r : List Char) :
    afterWs (w ++ c :: r) = c :: r := by
  induction w with
  | nil => simp [afterWs, List.dropWhile_cons, hc]
  | cons a as ih =>
    simp only [List.all_cons, Bool.and_eq_true] at hw
    have h2 := ih hw.2
    simpa [afterWs, List.dropWhile_cons, hw.1] using h2

theorem wsRun_ws_append (w : List Char) (hw : w.all isWsChar = true)
    (c : Char) (hc : isWsChar c = false) (r : List Char) :
    wsRun (w ++ c :: r) = w := by
  induction w with
  | nil => simp [wsRun, List.takeWhile_cons, hc]
  | cons a as ih =>
    simp only [List.all_cons, Bool.and_eq_true] at hw
    have h2 := ih hw.2
    simpa [wsRun, List.takeWhile_cons, hw.1] using h2

theorem pmatch_blank (l : List Char) (h : blank l = true) :
    pmatch hashPre l = false := by
  have hws : afterWs l = [] := all_ws_dropWhile l h
  simp [pmatch, hws, hashPre_eq, isPre]

theorem pmatch_hash_append (l : List Char) : pmatch hashPre (hashPre ++ l) = true := rfl

theorem blank_hash_append (l : List Char) : blank (hashPre ++ l) = false := rfl

theorem uncomment_hash_append (l : List Char) :
    uncomment_line hashPre (hashPre ++ l) = l := rfl

theorem will_comment_eq_false_iff (pre : List Char) (lines : List (List Char)) :
    will_comment pre lines = false ↔
      ∀ l ∈ lines, blank l = false → pmatch pre l = true := by
  induction lines with
  | nil => simp [will_comment]
  | cons l ls ih =>
    by_cases hb : blank l = true
    · simp [will_comment, hb, ih]
    · rw [Bool.not_eq_true] at hb
      by_cases hp : pmatch pre l = true
      · simp [will_comment, hb, hp, ih]
      · rw [Bool.not_eq_true] at hp
        simp only [will_comment, hb, hp, Bool.false_eq_true, if_false]
        constructor
        · intro hc
          cases hc
        · intro hc
          exact absurd (hc l (List.mem_cons_self l ls) hb) (by simp [hp])

theorem map_id_mem {α : Type} (l : List α) (f : α → α) (h : ∀ x ∈ l, f x = x) :
    l.map f = l := by
  induction l with
  | nil => rfl
  | cons x xs ih =>
    simp [List.map_cons, h x (List.mem_cons_self x xs),
      ih (fun y hy => h y (List.mem_cons_of_mem x hy))]

theorem map_blank_guard_id (f : List Char → List Char) (lines : List (List Char))
    (h : ∀ l ∈ lines, blank l = true) :
    lines.map (fun l => if blank l then l else f l) = lines := by
  apply map_id_mem
  intro l hl
  simp [h l hl]

theorem toggle_block_wc_true (pre : List Char) (lines : List (List Char))
    (h : will_comment pre lines = true) :
    toggle_block pre lines = lines.map (fun l => if blank l then l else pre ++ l) := by
  simp [toggle_block, comment_block, h, force_comment_line]

theorem toggle_block_wc_false (pre : List Char) (lines : List (List Char))
    (h : will_comment pre lines = false) :
    toggle_block pre lines = lines.map (fun l => if blank l then l else uncomment_line pre l) := by
  simp [toggle_block, comment_block, h]

theorem toggle_block_of_all_blank (lines : List (List Char))
    (h : ∀ l ∈ lines, blank l = true) :
    toggle_block hashPre lines = lines := by
  cases hwc : will_comment hashPre lines
  · rw [toggle_block_wc_false _ _ hwc, map_blank_guard_id _ _ h]
  · rw [toggle_block_wc_true _ _ hwc, map_blank_guard_id _ _ h]

/- ------------------------------------------------------------------ -/
/- Claim theorems -/

/-- C1 counterexample: the block `["# a", "b"]` has a prefixed first
non-blank line, yet the block toggle force-comments the whole run instead of
uncommenting every non-blank line as the claim states. -/
theorem c1_counterexample :
    blank ("# a".toList) = false ∧
    pmatch hashPre ("# a".toList) = true ∧
    toggle_block hashPre ["# a".toList, "b".toList] = ["# # a".toList, "# b".toList] ∧
    toggle_block hashPre ["# a".toList, "b".toList] ≠
      [uncomment_line hashPre ("# a".toList), uncomment_line hashPre ("b".toList)] := by
  refine ⟨rfl, rfl, rfl, ?_⟩
  decide

/-- C1 amended: the block toggle decides its operator by scanning all lines
of the run, not only the first non-blank line: if every non-blank line is
prefixed, the uncomment operator is applied to every non-blank line; if some
non-blank line is unprefixed, force-comment is applied to every non-blank
line. -/
theorem c1_amended (lines : List (List Char)) :
    ((∀ l ∈ lines, blank l = false → pmatch hashPre l = true) →
      comment_block CommentingMode.Toggle hashPre lines =
        lines.map (fun l => if blank l then l else uncomment_line hashPre l)) ∧
    ((∃ l ∈ lines, blank l = false ∧ pmatch hashPre l = false) →
      comment_block CommentingMode.Toggle hashPre lines =
        lines.map (fun l => if blank l then l else force_comment_line hashPre l)) := by
  constructor
  · intro h
    have hwc : will_comment hashPre lines = false := (will_comment_eq_false_iff _ _).mpr h
    exact toggle_block_wc_false _ _ hwc
  · rintro ⟨l, hl, hb, hp⟩
    have hwc : will_comment hashPre lines = true := by
      cases hval : will_comment hashPre lines
      · exact absurd ((will_comment_eq_false_iff _ _).mp hval l hl hb) (by simp [hp])
      · rfl
    simpa [force_comment_line] using toggle_block_wc_true _ _ hwc

/-- C1 witness: on the fully prefixed block `["# a", "# b"]` the amended rule
gives the uncomment operator on every line. -/
theorem c1_amended_witness :
    comment_block CommentingMode.Toggle hashPre ["# a".toList, "# b".toList] =
      ["a".toList, "b".toList] :=
  ((c1_amended ["# a".toList, "# b".toList]).1 (by decide)).trans (by decide)

/-- C2 counterexample: the one-line block `["  # a"]` is internally
self-consistent (its only non-blank line is commented), yet toggling twice
yields `["#   a"]`, not the original: the uncomment step keeps the leading
whitespace, but the force-comment step puts the prefix in front of it. -/
theorem c2_counterexample :
    blank ("  # a".toList) = false ∧
    pmatch hashPre ("  # a".toList) = true ∧
    toggle_block hashPre (toggle_block hashPre ["  # a".toList]) = ["#   a".toList] ∧
    ["#   a".toList] ≠ [("  # a".toList)] := by
  refine ⟨rfl, rfl, rfl, ?_⟩
  decide

/-- C2 amended: the double block toggle restores the original block for any
block that is uniformly uncommented (every non-blank line unprefixed), and
for any uniformly commented block in which every non-blank line carries the
prefix at the very start of the line with a non-blank remainder that is not
itself prefixed. -/
theorem c2_amended (lines : List (List Char))
    (h : (∀ l ∈ lines, blank l = false → pmatch hashPre l = false) ∨
         (∀ l ∈ lines, blank l = false →
           ∃ t, l = hashPre ++ t ∧ blank t = false ∧ pmatch hashPre t = false)) :
    toggle_block hashPre (toggle_block hashPre lines) = lines := by
  rcases h with hA | hB
  · cases hwc : will_comment hashPre lines
    · have hall : ∀ l ∈ lines, blank l = true := by
        intro l hl
        cases hb : blank l
        · exact absurd ((will_comment_eq_false_iff _ _).mp hwc l hl hb)
            (by simp [hA l hl hb])
        · rfl
      rw [toggle_block_of_all_blank _ hall, toggle_block_of_all_blank _ hall]
    · rw [toggle_block_wc_true _ _ hwc]
      have hwc2 : will_comment hashPre
          (lines.map (fun l => if blank l then l else hashPre ++ l)) = false := by
        apply (will_comment_eq_false_iff _ _).mpr
        intro l' hl' hb'
        rcases List.mem_map.mp hl' with ⟨l, hl, rfl⟩
        cases hb : blank l
        · rw [if_neg (by simp [hb])] at hb' ⊢
          exact pmatch_hash_append l
        · rw [if_pos (by simp [hb])] at hb'
          rw [hb] at hb'
          cases hb'
      rw [toggle_block_wc_false _ _ hwc2, List.map_map]
      apply map_id_mem
      intro l hl
      cases hb : blank l
      · simp only [Function.comp_apply, if_neg (by simp [hb] : ¬ blank l = true)]
        rw [if_neg (by simp [blank_hash_append l])]
        exact uncomment_hash_append l
      · simp [Function.comp_apply, hb]
  · have hwc : will_comment hashPre lines = false := by
      apply (will_comment_eq_false_iff _ _).mpr
      intro l hl hb
      rcases hB l hl hb with ⟨t, rfl, _, _⟩
      exact pmatch_hash_append t
    by_cases hall : ∀ l ∈ lines, blank l = true
    · rw [toggle_block_of_all_blank _ hall, toggle_block_of_all_blank _ hall]
    · push_neg at hall
      rcases hall with ⟨l0, hl0, hb0⟩
      have hb0' : blank l0 = false := by simpa using hb0
      rcases hB l0 hl0 hb0' with ⟨t0, hleq, hbt0, hpt0⟩
      rw [toggle_block_wc_false _ _ hwc]
      have hwc2 : will_comment hashPre
          (lines.map (fun l => if blank l then l else uncomment_line hashPre l)) = true := by
        cases hval : will_comment hashPre
            (lines.map (fun l => if blank l then l else uncomment_line hashPre l))
        · exfalso
          have hmem : t0 ∈ lines.map (fun l => if blank l then l else uncomment_line hashPre l) := by
            apply List.mem_map.mpr
            refine ⟨l0, hl0, ?_⟩
            rw [if_neg (by simp [hb0]), hleq]
            exact uncomment_hash_append t0
          have := (will_comment_eq_false_iff _ _).mp hval t0 hmem hbt0
          simp [hpt0] at this
        · rfl
      rw [toggle_block_wc_true _ _ hwc2, List.map_map]
      apply map_id_mem
      intro l hl
      cases hb : blank l
      · rcases hB l hl hb with ⟨t, hlt, hbt, _⟩
        subst hlt
        have hg : (if blank (hashPre ++ t) = true then hashPre ++ t
            else uncomment_line hashPre (hashPre ++ t)) = t := by
          rw [if_neg (by simp [hb]), uncomment_hash_append t]
        simp only [Function.comp_apply]
        rw [hg, if_neg (by simp [hbt])]
      · simp [Function.comp_apply, hb]

/-- C2 witness: the round-trip scenario from the spec, a uniformly
uncommented block (the line starting with a bare hash does not carry the
two-character prefix). -/
theorem c2_amended_witness :
    toggle_block hashPre (toggle_block hashPre
        ["a = 1".toList, "b = 2".toList, "#c = 3".toList, "d = 4".toList]) =
      ["a = 1".toList, "b = 2".toList, "#c = 3".toList, "d = 4".toList] :=
  c2_amended _ (Or.inl (by decide))

/-- C3 counterexample: `uncomment` strips only one prefix occurrence, so on
the line `"# # a"` a second application strips again: it is not idempotent. -/
theorem c3_counterexample :
    uncomment_line hashPre ("# # a".toList) = "# a".toList ∧
    uncomment_line hashPre (uncomment_line hashPre ("# # a".toList)) = "a".toList ∧
    uncomment_line hashPre (uncomment_line hashPre ("# # a".toList)) ≠
      uncomment_line hashPre ("# # a".toList) := by
  refine ⟨rfl, rfl, ?_⟩
  decide

/-- C3 amended: `uncomment` strips one prefix occurrence found immediately
after the leading whitespace, preserving the whitespace and remainder, and
leaves unprefixed lines unchanged; it is idempotent exactly on lines whose
stripped form is not itself prefixed. -/
theorem c3_amended :
    (∀ w t : List Char, w.all isWsChar = true →
      uncomment_line hashPre (w ++ hashPre ++ t) = w ++ t) ∧
    (∀ l : List Char, pmatch hashPre l = false → uncomment_line hashPre l = l) ∧
    (∀ l : List Char, pmatch hashPre (uncomment_line hashPre l) = false →
      uncomment_line hashPre (uncomment_line hashPre l) = uncomment_line hashPre l) := by
  have habs : ∀ l : List Char, pmatch hashPre l = false → uncomment_line hashPre l = l := by
    intro l h
    simp [uncomment_line, pReplace, h]
  refine ⟨?_, habs, fun l h => habs _ h⟩
  intro w t hw
  have hPre : hashPre ++ t = '#' :: ' ' :: t := rfl
  have hsplit : w ++ hashPre ++ t = w ++ '#' :: ' ' :: t := by
    rw [List.append_assoc, hPre]
  have h1 : afterWs (w ++ hashPre ++ t) = hashPre ++ t := by
    rw [hsplit, hPre]
    exact afterWs_ws_append w hw '#' (by decide) (' ' :: t)
  have h2 : wsRun (w ++ hashPre ++ t) = w := by
    rw [hsplit]
    exact wsRun_ws_append w hw '#' (by decide) (' ' :: t)
  have h3 : pmatch hashPre (w ++ hashPre ++ t) = true := by
    simp only [pmatch, h1]
    rfl
  simp only [uncomment_line, pReplace, h3, if_true, h2, h1]
  rfl

/-- C3 witness: the amended statement evaluated at `"  # ab"` (strip one
occurrence, keep whitespace), at the unprefixed `"xy"`, and idempotence at
`"  # ab"`, whose stripped form `"  ab"` is unprefixed. -/
theorem c3_amended_witness :
    uncomment_line hashPre ("  # ab".toList) = "  ab".toList ∧
    uncomment_line hashPre ("xy".toList) = "xy".toList ∧
    uncomment_line hashPre (uncomment_line hashPre ("  # ab".toList)) =
      uncomment_line hashPre ("  # ab".toList) := by
  refine ⟨?_, ?_, ?_⟩
  · exact (c3_amended.1 ("  ".toList) ("ab".toList) (by decide)).trans (by decide)
  · exact c3_amended.2.1 _ (by decide)
  · exact c3_amended.2.2 _ (by decide)

/-- C4: evaluation of the code at the diverging input.  With the range
`/foo/,+1` on the stream `foo, x, foo, y`, the range opens at line 1 and
covers lines 1-2; line 3 equals opening line + count + 1 and matches the
start regex, yet the code reports it unselected (it only resets the state,
without re-testing the start regex on that line), so the flags are
`[true, true, false, false]` rather than the claimed reopening at line 3. -/
theorem c4_code_divergence :
    reFoo ("foo".toList) = true ∧
    line_flags
      (AddressPattern.new_range (AddressComponent.RegexPattern reFoo) (AddressComponent.Relative 1))
      ["foo".toList, "x".toList, "foo".toList, "y".toList] =
      some [true, true, false, false] := by
  exact ⟨rfl, rfl⟩

/-- C5: evaluation of the code at the diverging input.  A trailing
exclamation mark is not handled anywhere in the parser, so `2!` (and every
other negated form exercised by the sed-conformance tests) fails to parse
instead of producing a negated address. -/
theorem c5_code_divergence :
    try_parse_pattern compileTriv ("2!".toList) = Except.error "unable to parse component" ∧
    try_parse_pattern compileTriv ("3,7!".toList) = Except.error "unable to parse component" := by
  exact ⟨rfl, rfl⟩

/-- C6 counterexample: `+3` as sole address and `+3,5` with a relative first
component both parse successfully, contradicting the claim that they fail at
parse time. -/
theorem c6_counterexample :
    try_parse_pattern compileTriv ("+3".toList) =
      Except.ok (AddressPattern.new_single (AddressComponent.Relative 3)) ∧
    try_parse_pattern compileTriv ("+3,5".toList) =
      Except.ok (AddressPattern.new_range (AddressComponent.Relative 3) (AddressComponent.Line 5)) := by
  exact ⟨rfl, rfl⟩

/-- C6 amended: a relative offset as sole address or as the first component
of a range parses successfully; the failure is raised only later, during
line scanning, when the pattern is first evaluated (a panic, modelled as
`none`), on every line. -/
theorem c6_amended :
    try_parse_pattern compileTriv ("+3".toList) =
      Except.ok (AddressPattern.new_single (AddressComponent.Relative 3)) ∧
    try_parse_pattern compileTriv ("+3,5".toList) =
      Except.ok (AddressPattern.new_range (AddressComponent.Relative 3) (AddressComponent.Line 5)) ∧
    (∀ (n ln : Nat) (l : List Char) (st : MatchState),
      (AddressPattern.new_single (AddressComponent.Relative n)).matches ln l st = none) ∧
    (∀ (n m ln : Nat) (l : List Char) (st : MatchState),
      (AddressPattern.new_range (AddressComponent.Relative n) (AddressComponent.Line m)).matches ln l st = none) := by
  refine ⟨rfl, rfl, ?_, ?_⟩
  · intro n ln l st
    rfl
  · intro n m ln l st
    rfl

/-- C7: negation is a per-line complement that never alters the
range-tracking state: evaluating the inverted pattern gives exactly the
complemented boolean with an identical updated MatchState (and `none`
exactly when the original panics). -/
theorem c7_negation_complement :
    ∀ (p : AddressPattern) (n : Nat) (l : List Char) (st : MatchState),
      p.invert.matches n l st =
        (p.matches n l st).map (fun r => (!r.1, r.2)) := by
  intro p n l st
  show (p.matches_raw n l st).map (fun r => (if !p.negated then !r.1 else r.1, r.2)) =
    ((p.matches_raw n l st).map (fun r => (if p.negated then !r.1 else r.1, r.2))).map
      (fun r => (!r.1, r.2))
  cases p.matches_raw n l st with
  | none => rfl
  | some r => cases p.negated <;> simp


theorem c8_closed_flags (e : List Char → Bool) (s : Nat) (rest : List (List Char)) :
    ∀ (idx : Nat) (lm : Option Nat) (j : Nat),
      get_flags (AddressPattern.new_range (AddressComponent.Line s) (AddressComponent.RegexPattern e))
          idx (MatchState.mk lm (some j)) rest =
        some (rest.map (fun l => (false, l))) := by
  induction rest with
  | nil => intro idx lm j; rfl
  | cons l ls ih =>
    intro idx lm j
    have hm : (AddressPattern.new_range (AddressComponent.Line s) (AddressComponent.RegexPattern e)).matches
        (idx + 1) l (MatchState.mk lm (some j)) = some (false, MatchState.mk lm (some j)) := rfl
    simp [get_flags, hm, ih]

theorem c8_open_flags (e : List Char → Bool) (rest : List (List Char)) :
    ∀ (idx : Nat) (lm : Option Nat), (∀ l ∈ rest, e l = false) →
      get_flags (AddressPattern.new_range (AddressComponent.Line 1) (AddressComponent.RegexPattern e))
          idx (MatchState.mk lm none) rest =
        some (rest.map (fun l => (true, l))) := by
  induction rest with
  | nil => intro idx lm _; rfl
  | cons l ls ih =>
    intro idx lm h
    have hm : (AddressPattern.new_range (AddressComponent.Line 1) (AddressComponent.RegexPattern e)).matches
        (idx + 1) l (MatchState.mk lm none) = some (true, MatchState.mk lm none) := by
      simp only [AddressPattern.new_range, AddressPattern.matches, AddressPattern.matches_raw,
        AddressPattern.match_range]
      simp [h l (List.mem_cons_self l ls)]
    simp [get_flags, hm, ih _ _ (fun x hx => h x (List.mem_cons_of_mem l hx))]

/-- C8: with `Range(LineNumber 0, Regex e)` on an input whose first line
matches `e`, exactly line 1 is selected (the first match closes the range
that was open before the stream began); with `Range(LineNumber 1, Regex e)`,
the closing regex only closes on a line strictly after line 1, so if no
later line matches `e`, every line from 1 onward stays selected through
end-of-input. -/
theorem c8_zero_vs_one_regex_range (e : List Char → Bool) (l1 : List Char)
    (rest : List (List Char)) :
    (e l1 = true →
      line_flags (AddressPattern.new_range (AddressComponent.Line 0) (AddressComponent.RegexPattern e))
          (l1 :: rest) = some (true :: rest.map (fun _ => false))) ∧
    ((∀ l ∈ rest, e l = false) →
      line_flags (AddressPattern.new_range (AddressComponent.Line 1) (AddressComponent.RegexPattern e))
          (l1 :: rest) = some (true :: rest.map (fun _ => true))) := by
  constructor
  · intro he
    have hm1 : (AddressPattern.new_range (AddressComponent.Line 0) (AddressComponent.RegexPattern e)).matches
        1 l1 EMPTY_STATE = some (true, MatchState.mk none (some 1)) := by
      simp only [AddressPattern.new_range, AddressPattern.matches, AddressPattern.matches_raw,
        AddressPattern.match_range, EMPTY_STATE]
      simp [he]
    have hrest := c8_closed_flags e 0 rest 1 none 1
    simp [line_flags, get_flags, hm1, hrest, List.map_map, Function.comp]
  · intro hA
    have hm1 : (AddressPattern.new_range (AddressComponent.Line 1) (AddressComponent.RegexPattern e)).matches
        1 l1 (MatchState.mk none none) = some (true, MatchState.mk none none) := by
      simp only [AddressPattern.new_range, AddressPattern.matches, AddressPattern.matches_raw,
        AddressPattern.match_range]
      simp
    have hrest := c8_open_flags e rest 1 none hA
    simp [line_flags, get_flags, EMPTY_STATE, hm1, hrest, List.map_map, Function.comp]

/-- C8 witness: on the stream `x, y, z` with a regex matching exactly `x`,
the pattern `0,/x/` selects exactly line 1 and the pattern `1,/x/` selects
every line. -/
theorem c8_witness :
    line_flags (AddressPattern.new_range (AddressComponent.Line 0) (AddressComponent.RegexPattern reX))
        ["x".toList, "y".toList, "z".toList] = some [true, false, false] ∧
    line_flags (AddressPattern.new_range (AddressComponent.Line 1) (AddressComponent.RegexPattern reX))
        ["x".toList, "y".toList, "z".toList] = some [true, true, true] := by
  constructor
  · exact ((c8_zero_vs_one_regex_range reX ("x".toList) ["y".toList, "z".toList]).1
      (by decide)).trans (by decide)
  · exact ((c8_zero_vs_one_regex_range reX ("x".toList) ["y".toList, "z".toList]).2
      (by decide)).trans (by decide)

/-- C9: in a double-regex range, whenever the start regex matches a line the
line is reported as matched and the state afterwards is exactly
"just opened here" (left match at this line, pending close cleared) —
regardless of whether the end regex also matches this line (opening wins
over closing for state purposes) and regardless of the previous state (an
already open range restarts at the new opening line, discarding the pending
close search). -/
theorem c9_double_regex_open_precedence (s e : List Char → Bool) (n : Nat)
    (l : List Char) (st : MatchState) (h : s l = true) :
    (AddressPattern.new_range (AddressComponent.RegexPattern s) (AddressComponent.RegexPattern e)).matches
        n l st = some (true, MatchState.mk (some n) none) := by
  simp only [AddressPattern.new_range, AddressPattern.matches, AddressPattern.matches_raw,
    AddressPattern.match_range]
  simp [h]

/-- C9 witness: a line matching both regexes, evaluated in an open state
with a stale pending close, reports a match and resets to "just opened". -/
theorem c9_witness :
    (AddressPattern.new_range (AddressComponent.RegexPattern reAb) (AddressComponent.RegexPattern reAb)).matches
        5 ("ab".toList) (MatchState.mk (some 2) (some 3)) =
      some (true, MatchState.mk (some 5) none) :=
  c9_double_regex_open_precedence reAb reAb 5 ("ab".toList) (MatchState.mk (some 2) (some 3))
    (by decide)

/-- C10: a selected blank line is treated differently by the two processing
paths: under the single address `2` in Comment mode the blank second line is
prefixed (a blank line never matches the comment detector), while under the
range address `2,2` the block path passes the blank line through unchanged;
the surrounding lines are untouched either way. -/
theorem c10_blank_line_paths (l1 bl l3 : List Char) (h : blank bl = true) :
    process CommentingMode.Comment (AddressPattern.new_single (AddressComponent.Line 2))
        hashPre [l1, bl, l3] = some [l1, hashPre ++ bl, l3] ∧
    process CommentingMode.Comment (AddressPattern.new_range (AddressComponent.Line 2) (AddressComponent.Line 2))
        hashPre [l1, bl, l3] = some [l1, bl, l3] := by
  have hpm : pmatch hashPre bl = false := pmatch_blank bl h
  constructor
  · have hir : (AddressPattern.new_single (AddressComponent.Line 2)).is_range = false := rfl
    have h1 : (AddressPattern.new_single (AddressComponent.Line 2)).matches 1 l1 EMPTY_STATE =
        some (false, EMPTY_STATE) := rfl
    have h2 : (AddressPattern.new_single (AddressComponent.Line 2)).matches 2 bl EMPTY_STATE =
        some (true, EMPTY_STATE) := rfl
    have h3 : (AddressPattern.new_single (AddressComponent.Line 2)).matches 3 l3 EMPTY_STATE =
        some (false, EMPTY_STATE) := rfl
    simp [process, hir, comment_lines, comment_lines_go, h1, h2, h3, comment_line, hpm]
  · have hir : (AddressPattern.new_range (AddressComponent.Line 2) (AddressComponent.Line 2)).is_range = true := rfl
    have g1 : (AddressPattern.new_range (AddressComponent.Line 2) (AddressComponent.Line 2)).matches
        1 l1 EMPTY_STATE = some (false, EMPTY_STATE) := rfl
    have g2 : (AddressPattern.new_range (AddressComponent.Line 2) (AddressComponent.Line 2)).matches
        2 bl EMPTY_STATE = some (true, EMPTY_STATE) := rfl
    have g3 : (AddressPattern.new_range (AddressComponent.Line 2) (AddressComponent.Line 2)).matches
        3 l3 EMPTY_STATE = some (false, EMPTY_STATE) := rfl
    simp [process, hir, get_matches, get_flags, g1, g2, g3, groupRuns, apply_chunks,
      comment_block, h]

/-- C10 witness: the two paths evaluated on the concrete stream
`a, "   ", b`: pattern `2` comments the blank line, pattern `2,2` leaves it
unchanged. -/
theorem c10_witness :
    process CommentingMode.Comment (AddressPattern.new_single (AddressComponent.Line 2))
        hashPre ["a".toList, "   ".toList, "b".toList] =
      some ["a".toList, "#    ".toList, "b".toList] ∧
    process CommentingMode.Comment (AddressPattern.new_range (AddressComponent.Line 2) (AddressComponent.Line 2))
        hashPre ["a".toList, "   ".toList, "b".toList] =
      some ["a".toList, "   ".toList, "b".toList] := by
  have h := c10_blank_line_paths ("a".toList) ("   ".toList) ("b".toList) (by decide)
  exact ⟨h.1.trans (by decide), h.2⟩
